import Mathlib

/-!
Verification of the GitHub PR review bot (`src/index.ts`): a shallow
embedding of the webhook pipeline — signature verification, event routing,
file selection, the Gemini response handling, the line-comment parser and
the comment-publishing loop — together with theorems settling the frozen
claims about it.
-/

namespace PRBot

/-! ## JavaScript string primitives

The bot manipulates JS strings: `split("\n")`, `includes`, `endsWith`,
`trim`, and the regex character classes `\s` (whitespace), `\d` (digits)
and `.` (any char except line terminators).  We model them on `List Char`.
-/

/-- The JavaScript whitespace class `\s` (WhiteSpace plus LineTerminator):
space, tab, LF, VT, FF, CR, NBSP, Ogham space, the U+2000–U+200A range,
LS, PS, NNBSP, MMSP, ideographic space and the BOM. -/
def isJsWs (c : Char) : Bool :=
  c == ' ' || c == '\t' || c == '\n' || c == '\r' ||
  c.toNat == 11 || c.toNat == 12 || c.toNat == 160 || c.toNat == 5760 ||
  (Nat.ble 8192 c.toNat && Nat.ble c.toNat 8202) ||
  c.toNat == 8232 || c.toNat == 8233 || c.toNat == 8239 ||
  c.toNat == 8287 || c.toNat == 12288 || c.toNat == 65279

/-- JavaScript line terminators: LF, CR, LS, PS.  The regex `.` matches
every character except these. -/
def isLineTerminator (c : Char) : Bool :=
  c == '\n' || c == '\r' || c.toNat == 8232 || c.toNat == 8233

/-- What the regex metacharacter `.` matches (no `s` flag): any character
that is not a line terminator. -/
def dotMatches (c : Char) : Bool := !(isLineTerminator c)

/-- `String.prototype.trim` on the character list: strip `\s` characters
from both ends. -/
def jsTrimList (cs : List Char) : List Char :=
  ((cs.dropWhile isJsWs).reverse.dropWhile isJsWs).reverse

/-- `String.prototype.trim`. -/
def jsTrim (s : String) : String := ⟨jsTrimList s.data⟩

/-- Whether `pat` is a prefix of the second list (JS `startsWith`). -/
def listIsPre : List Char → List Char → Bool
  | [], _ => true
  | _ :: _, [] => false
  | p :: ps, c :: cs => p == c && listIsPre ps cs

/-- Whether `pat` occurs as a contiguous substring (JS `includes`). -/
def listIsSub (pat : List Char) : List Char → Bool
  | [] => pat.isEmpty
  | c :: cs => listIsPre pat (c :: cs) || listIsSub pat cs

/-- `String.prototype.includes`. -/
def jsIncludes (s pat : String) : Bool := listIsSub pat.data s.data

/-- `String.prototype.endsWith`. -/
def jsEndsWith (s suffi : String) : Bool :=
  listIsPre suffi.data.reverse s.data.reverse

/-- `String.prototype.split("\n")`: cut the character list at every
newline; `""` splits to `[""]`, a trailing newline yields a final `""`. -/
def splitOnNl : List Char → List (List Char)
  | [] => [[]]
  | c :: cs =>
    if c == '\n' then [] :: splitOnNl cs
    else
      match splitOnNl cs with
      | [] => [[c]]
      | h :: t => (c :: h) :: t

/-! ## SHA-256 and HMAC

`verifyWebhookSignature` HMAC-SHA-256s the raw body with the shared
secret via WebCrypto.  We implement the full FIPS 180-4 / RFC 2104
algorithms over byte lists (`Nat` values < 256) so the verifier is a
concrete executable function.
-/

/-- 32-bit mask. -/
def wmask : Nat := 4294967295

/-- Right rotation of a 32-bit word. -/
def rotr (n x : Nat) : Nat := ((x >>> n) ||| (x <<< (32 - n))) &&& wmask

/-- SHA-256 big sigma 0. -/
def bsig0 (x : Nat) : Nat := rotr 2 x ^^^ rotr 13 x ^^^ rotr 22 x

/-- SHA-256 big sigma 1. -/
def bsig1 (x : Nat) : Nat := rotr 6 x ^^^ rotr 11 x ^^^ rotr 25 x

/-- SHA-256 small sigma 0. -/
def ssig0 (x : Nat) : Nat := rotr 7 x ^^^ rotr 18 x ^^^ (x >>> 3)

/-- SHA-256 small sigma 1. -/
def ssig1 (x : Nat) : Nat := rotr 17 x ^^^ rotr 19 x ^^^ (x >>> 10)

/-- The 64 SHA-256 round constants (FIPS 180-4 section 4.2.2, written
in decimal). -/
def sha256K : List Nat :=
  [1116352408, 1899447441, 3049323471, 3921009573,
   961987163, 1508970993, 2453635748, 2870763221,
   3624381080, 310598401, 607225278, 1426881987,
   1925078388, 2162078206, 2614888103, 3248222580,
   3835390401, 4022224774, 264347078, 604807628,
   770255983, 1249150122, 1555081692, 1996064986,
   2554220882, 2821834349, 2952996808, 3210313671,
   3336571891, 3584528711, 113926993, 338241895,
   666307205, 773529912, 1294757372, 1396182291,
   1695183700, 1986661051, 2177026350, 2456956037,
   2730485921, 2820302411, 3259730800, 3345764771,
   3516065817, 3600352804, 4094571909, 275423344,
   430227734, 506948616, 659060556, 883997877,
   958139571, 1322822218, 1537002063, 1747873779,
   1955562222, 2024104815, 2227730452, 2361852424,
   2428436474, 2756734187, 3204031479, 3329325298]

/-- The initial SHA-256 state (FIPS 180-4 section 5.3.3, in decimal). -/
def sha256H0 : List Nat :=
  [1779033703, 3144134277, 1013904242, 2773480762,
   1359893119, 2600822924, 528734635, 1541459225]

/-- Big-endian bytes of a 64-bit value. -/
def be64 (n : Nat) : List Nat :=
  [(n >>> 56) &&& 255, (n >>> 48) &&& 255, (n >>> 40) &&& 255,
   (n >>> 32) &&& 255, (n >>> 24) &&& 255, (n >>> 16) &&& 255,
   (n >>> 8) &&& 255, n &&& 255]

/-- Big-endian bytes of a 32-bit word. -/
def be32 (n : Nat) : List Nat :=
  [(n >>> 24) &&& 255, (n >>> 16) &&& 255, (n >>> 8) &&& 255, n &&& 255]

/-- Merkle–Damgård padding: append `0x80`, zeros to 56 mod 64, and the
message bit length as 8 big-endian bytes. -/
def padMessage (msg : List Nat) : List Nat :=
  msg ++ [128] ++ List.replicate ((119 - msg.length % 64) % 64) 0
      ++ be64 (8 * msg.length)

/-- Split a byte list into 64-byte chunks (fuel-driven for structural
recursion). -/
def toChunksAux : Nat → List Nat → List (List Nat)
  | 0, _ => []
  | _, [] => []
  | fuel + 1, l => l.take 64 :: toChunksAux fuel (l.drop 64)

/-- Split a padded message into its 64-byte chunks. -/
def toChunks (l : List Nat) : List (List Nat) := toChunksAux l.length l

/-- Pack bytes into big-endian 32-bit words. -/
def bytesToWords : List Nat → List Nat
  | a :: b :: c :: d :: rest =>
    ((a <<< 24) ||| (b <<< 16) ||| (c <<< 8) ||| d) :: bytesToWords rest
  | _ => []

/-- Extend the 16-word block to the 64-word message schedule. -/
def extendSchedule : Nat → List Nat → List Nat
  | 0, w => w
  | n + 1, w =>
    let t := w.length
    let nw := (ssig1 (w.getD (t - 2) 0) + w.getD (t - 7) 0 +
               ssig0 (w.getD (t - 15) 0) + w.getD (t - 16) 0) &&& wmask
    extendSchedule n (w ++ [nw])

/-- One SHA-256 round on the 8-word working state, fed one constant and
one schedule word. -/
def sha256Round (st : Nat × Nat × Nat × Nat × Nat × Nat × Nat × Nat)
    (kw : Nat × Nat) : Nat × Nat × Nat × Nat × Nat × Nat × Nat × Nat :=
  match st, kw with
  | (a, b, c, d, e, f, g, h), (k, w) =>
    let ch := (e &&& f) ^^^ ((e ^^^ wmask) &&& g)
    let maj := (a &&& b) ^^^ (a &&& c) ^^^ (b &&& c)
    let t1 := (h + bsig1 e + ch + k + w) &&& wmask
    let t2 := (bsig0 a + maj) &&& wmask
    ((t1 + t2) &&& wmask, a, b, c, (d + t1) &&& wmask, e, f, g)

/-- Compress one 64-byte chunk into the running 8-word hash state. -/
def compressChunk (hs : List Nat) (chunk : List Nat) : List Nat :=
  let w := extendSchedule 48 (bytesToWords chunk)
  match sha256K.zip w |>.foldl sha256Round
      (hs.getD 0 0, hs.getD 1 0, hs.getD 2 0, hs.getD 3 0,
       hs.getD 4 0, hs.getD 5 0, hs.getD 6 0, hs.getD 7 0) with
  | (a, b, c, d, e, f, g, h) =>
    [(hs.getD 0 0 + a) &&& wmask, (hs.getD 1 0 + b) &&& wmask,
     (hs.getD 2 0 + c) &&& wmask, (hs.getD 3 0 + d) &&& wmask,
     (hs.getD 4 0 + e) &&& wmask, (hs.getD 5 0 + f) &&& wmask,
     (hs.getD 6 0 + g) &&& wmask, (hs.getD 7 0 + h) &&& wmask]

/-- SHA-256 of a byte list, as 32 digest bytes. -/
def sha256Bytes (msg : List Nat) : List Nat :=
  ((toChunks (padMessage msg)).foldl compressChunk sha256H0).foldr
    (fun w acc => be32 w ++ acc) []

/-- HMAC-SHA-256 (RFC 2104) of a message under a key, as 32 bytes. -/
def hmacSha256 (key msg : List Nat) : List Nat :=
  let k0 := if key.length > 64 then sha256Bytes key else key
  let k1 := k0 ++ List.replicate (64 - k0.length) 0
  sha256Bytes ((k1.map (fun b => b ^^^ 92)) ++
    sha256Bytes ((k1.map (fun b => b ^^^ 54)) ++ msg))

/-- UTF-8 encoding of one character (what `TextEncoder` produces). -/
def charUtf8 (c : Char) : List Nat :=
  let n := c.toNat
  if n < 128 then [n]
  else if n < 2048 then [192 ||| (n >>> 6), 128 ||| (n &&& 63)]
  else if n < 65536 then
    [224 ||| (n >>> 12), 128 ||| ((n >>> 6) &&& 63), 128 ||| (n &&& 63)]
  else
    [240 ||| (n >>> 18), 128 ||| ((n >>> 12) &&& 63),
     128 ||| ((n >>> 6) &&& 63), 128 ||| (n &&& 63)]

/-- UTF-8 bytes of a string (`TextEncoder.encode`). -/
def utf8Bytes (s : String) : List Nat := s.data.foldr (fun c acc => charUtf8 c ++ acc) []

/-- One lowercase hex digit. -/
def hexDigit (n : Nat) : Char :=
  if n < 10 then Char.ofNat (48 + n) else Char.ofNat (87 + n)

/-- A byte as two lowercase hex digits — `b.toString(16).padStart(2, "0")`. -/
def byteToHex (b : Nat) : List Char := [hexDigit ((b >>> 4) &&& 15), hexDigit (b &&& 15)]

/-- Lowercase hex encoding of the HMAC-SHA-256 of `body` keyed by
`secret`, both taken as UTF-8. -/
def hmacHex (secret body : String) : String :=
  ⟨(hmacSha256 (utf8Bytes secret) (utf8Bytes body)).foldr
    (fun b acc => byteToHex b ++ acc) []⟩

/-- `verifyWebhookSignature` (index.ts:11-38): HMAC-SHA-256 the raw body
text with the secret, hex-encode, prefix `sha256=`, and compare to the
supplied signature with exact string equality. -/
def verifyWebhookSignature (bodyText signature secret : String) : Bool :=
  signature == "sha256=" ++ hmacHex secret bodyText

/-- The expected signature value the verifier computes for a body. -/
def signatureFor (secret body : String) : String :=
  "sha256=" ++ hmacHex secret body

/-- A single character of a string replaced (used to state single-byte
mutations of a signature token). -/
def setCharAt (s : String) (i : Nat) (c : Char) : String := ⟨s.data.set i c⟩

/-! ## The feedback parser

`parseLineComments` (index.ts:194-212) splits the review text on `"\n"`
and matches each line against the regex `^- Line (\d+):\s*(.+)$`,
keeping `{line: parseInt(match[1]), comment: match[2].trim()}` when the
parsed number is positive and the trimmed comment non-empty.  We model
the regex exactly, including the backtracking between the greedy `\s*`
and `(.+)$` and the fact that `.` never matches a line terminator.
-/

/-- One parsed line finding `{line, comment}`. -/
structure LineComment where
  line : Nat
  comment : String
deriving Repr, DecidableEq

/-- Match `\s*(.+)$` against the rest of a line, returning the text
captured by `(.+)`: the greedy `\s*` consumes whitespace as long as a
non-empty all-`.` tail remains, backtracking one character at a time. -/
def matchTail : List Char → Option (List Char)
  | [] => none
  | c :: cs =>
    if isJsWs c then
      match matchTail cs with
      | some t => some t
      | none => if (c :: cs).all dotMatches then some (c :: cs) else none
    else
      if (c :: cs).all dotMatches then some (c :: cs) else none

/-- Strip an exact literal from the front of a line (the regex's literal
characters), or fail. -/
def stripLit : List Char → List Char → Option (List Char)
  | [], rest => some rest
  | _ :: _, [] => none
  | p :: ps, c :: cs => if p == c then stripLit ps cs else none

/-- The literal marker of the line-comment regex. -/
def markerChars : List Char := "- Line ".data

/-- Match a whole line against `^- Line (\d+):\s*(.+)$`, returning the
two capture groups (the digit run and the `(.+)` text). -/
def regexLineMatch (ln : List Char) : Option (List Char × List Char) :=
  match stripLit markerChars ln with
  | none => none
  | some rest =>
    let ds := rest.takeWhile Char.isDigit
    if ds.isEmpty then none
    else
      match rest.dropWhile Char.isDigit with
      | [] => none
      | c :: tail =>
        if c == ':' then
          match matchTail tail with
          | some t => some (ds, t)
          | none => none
        else none

/-- `parseInt` on a run of decimal digits. -/
def parseIntDigits (ds : List Char) : Nat :=
  ds.foldl (fun n c => n * 10 + (c.toNat - 48)) 0

/-- `parseLineComments` (index.ts:194-212): split the review on newlines,
regex-match each line, and keep findings with a positive line number and
a non-empty trimmed comment. -/
def parseLineComments (review : String) : List LineComment :=
  (splitOnNl review.data).filterMap (fun ln =>
    match regexLineMatch ln with
    | none => none
    | some (ds, t) =>
      let lineNumber := parseIntDigits ds
      let comment := jsTrim ⟨t⟩
      if lineNumber > 0 && !(comment == "") then
        some ⟨lineNumber, comment⟩
      else none)

/-- Modelled from the spec's words, for comparison with the code's
parser: a line yields a finding exactly when it starts with the literal
marker `- Line ` followed by a positive integer, a colon, and trailing
text that is non-empty after trimming; the finding holds that integer
and the trimmed text. -/
def specLineFinding (ln : List Char) : Option LineComment :=
  match stripLit markerChars ln with
  | none => none
  | some rest =>
    let ds := rest.takeWhile Char.isDigit
    if ds.isEmpty then none
    else
      match rest.dropWhile Char.isDigit with
      | [] => none
      | c :: tail =>
        if c == ':' then
          let n := parseIntDigits ds
          let comment := jsTrim ⟨tail⟩
          if n > 0 && !(comment == "") then some ⟨n, comment⟩ else none
        else none

/-- The corrected declarative reading of one line of the parser: as
`specLineFinding`, except that the trailing text must also, after its
leading whitespace, be non-empty and free of line-terminator characters
(the regex's `(.+)$` cannot cross a stray `\r`, LS or PS). -/
def amendedLineFinding (ln : List Char) : Option LineComment :=
  match stripLit markerChars ln with
  | none => none
  | some rest =>
    let ds := rest.takeWhile Char.isDigit
    if ds.isEmpty then none
    else
      match rest.dropWhile Char.isDigit with
      | [] => none
      | c :: tail =>
        if c == ':' then
          let n := parseIntDigits ds
          let t := tail.dropWhile isJsWs
          if n > 0 && !t.isEmpty && t.all dotMatches then
            some ⟨n, jsTrim ⟨tail⟩⟩
          else none
        else none

/-! ## The Gemini response handling

`reviewCode` (index.ts:94-165) posts a prompt to the Gemini endpoint and
then walks the untyped JSON answer: throw when no candidate is present,
return a fixed truncation message on `finishReason === "MAX_TOKENS"`,
return `candidates[0].content.parts[0].text` when the path down to
`parts[0]` is present (the `text` value itself is *not* checked and may
be `undefined`), and a fixed fallback message otherwise.  `Option`
models absent JSON fields, and the result type `Except String (Option
String)` models both the thrown error and a possibly-`undefined` return
value.
-/

/-- One element of `content.parts`; its `text` field may be absent. -/
structure GeminiPart where
  text : Option String
deriving Repr, DecidableEq

/-- `candidate.content`; its `parts` field may be absent. -/
structure GeminiContent where
  parts : Option (List GeminiPart)
deriving Repr, DecidableEq

/-- One candidate of the model response. -/
structure GeminiCandidate where
  finishReason : Option String
  content : Option GeminiContent
deriving Repr, DecidableEq

/-- The parsed JSON body of a Gemini response. -/
structure GeminiResponse where
  candidates : Option (List GeminiCandidate)
deriving Repr, DecidableEq

/-- The fixed truncation message returned on `MAX_TOKENS`. -/
def truncationMessage : String :=
  "Code review completed but response was truncated due to length. The code appears to have multiple issues that need attention."

/-- The fixed generic fallback message. -/
def fallbackMessage : String :=
  "Code review completed. Please check the code for potential issues."

/-- The message of the error thrown when no candidate is present. -/
def noCandidatesError : String := "No candidates in Gemini response"

/-- `reviewCode`'s response handling (index.ts:146-164): the state
machine over the first candidate. -/
def handleGeminiResponse (data : GeminiResponse) : Except String (Option String) :=
  match data.candidates with
  | none => Except.error noCandidatesError
  | some [] => Except.error noCandidatesError
  | some (c :: _) =>
    if c.finishReason == some "MAX_TOKENS" then
      Except.ok (some truncationMessage)
    else
      match c.content with
      | none => Except.ok (some fallbackMessage)
      | some content =>
        match content.parts with
        | none => Except.ok (some fallbackMessage)
        | some [] => Except.ok (some fallbackMessage)
        | some (p :: _) => Except.ok p.text

/-- The first candidate of a response, if any. -/
def firstCandidate (data : GeminiResponse) : Option GeminiCandidate :=
  data.candidates.bind List.head?

/-- The `parts[0]` slot reachable from a candidate, if the whole
`content.parts[0]` path is present. -/
def firstPart (c : GeminiCandidate) : Option GeminiPart :=
  (c.content.bind GeminiContent.parts).bind List.head?

/-- The four-case machine of the spec, amended at its last case: no
candidate fails, `MAX_TOKENS` returns the truncation message, a present
`parts[0]` returns its `text` value as is (possibly absent), and a
missing `content`/`parts`/`parts[0]` returns the fallback message. -/
def geminiSpecResult (data : GeminiResponse) : Except String (Option String) :=
  match firstCandidate data with
  | none => Except.error noCandidatesError
  | some c =>
    if c.finishReason == some "MAX_TOKENS" then
      Except.ok (some truncationMessage)
    else
      match firstPart c with
      | some p => Except.ok p.text
      | none => Except.ok (some fallbackMessage)

/-! ## The webhook pipeline

The `/webhook` handler (index.ts:253-396) is modelled as a pure function
of a `World`: the request data plus an oracle for every external call it
makes (JSON parsing, the GitHub files/content endpoints, the review
model, and the two comment-posting endpoints).  Its value is the HTTP
response together with a `Trace` recording, in order, the review-engine
invocations, the parser invocations, and the comment-posting calls the
run issues.
-/

/-- One entry of the pull-request files listing. -/
structure PRFile where
  filename : String
  status : String
  patch : String
deriving Repr, DecidableEq

/-- The payload fields the handler reads from `payload.pull_request` and
`payload.repository`. -/
structure PRData where
  number : Nat
  owner : String
  repo : String
  headRef : String
  headSha : String
deriving Repr, DecidableEq

/-- The parsed webhook payload: its `action` may be absent, and the
`pull_request`/`repository` structure may be missing entirely. -/
structure Payload where
  action : Option String
  prData : Option PRData
deriving Repr, DecidableEq

/-- The HTTP outcome of the pull-request-files endpoint. -/
structure FilesHttp where
  ok : Bool
  statusText : String
  files : List PRFile
deriving Repr

/-- The HTTP outcome of the raw-content endpoint for one file: the fetch
may throw (transport failure), return a non-success status, or succeed
with the body text. -/
structure ContentHttp where
  throws : Bool
  ok : Bool
  body : String
deriving Repr, DecidableEq

/-- `getPRFiles` (index.ts:40-67): throw `Failed to fetch PR files:`
plus the status text on a non-success response, else the file list. -/
def getPRFiles (r : FilesHttp) : Except String (List PRFile) :=
  if r.ok then Except.ok r.files
  else Except.error ("Failed to fetch PR files: " ++ r.statusText)

/-- `getFileContent` (index.ts:69-92): `null` on a transport failure or
a non-success response, else the body text; never throws. -/
def getFileContent (r : ContentHttp) : Option String :=
  if r.throws then none
  else if !r.ok then none
  else some r.body

/-- One comment-posting call: either `postPRComment` (a general
issue comment) or `postLineComment` (anchored to commit/path/line). -/
inductive CommentCall where
  | general (owner repo : String) (prNumber : Nat) (body : String)
  | line (owner repo : String) (prNumber : Nat) (commitId path : String)
      (lineNum : Nat) (body : String)
deriving Repr, DecidableEq

/-- Whether a call is a general comment. -/
def CommentCall.isGeneral : CommentCall → Bool
  | CommentCall.general _ _ _ _ => true
  | _ => false

/-- The trace one file's loop iteration leaves behind. -/
structure FileTrace where
  reviewCalls : List (String × String × Option String)
  parserCalls : List String
  commentCalls : List CommentCall
  commentResults : List Bool
deriving Repr, DecidableEq

/-- The empty per-file trace. -/
def emptyFileTrace : FileTrace := ⟨[], [], [], []⟩

/-- The trace of a whole run: whether the files listing was fetched,
plus the concatenated per-file events. -/
structure Trace where
  fetchAttempted : Bool
  reviewCalls : List (String × String × Option String)
  parserCalls : List String
  commentCalls : List CommentCall
  commentResults : List Bool
deriving Repr

/-- The trace of a run that ends before fetching the file list. -/
def emptyTrace : Trace := ⟨false, [], [], [], []⟩

/-- The environment of one webhook request: headers, body, secret, and
the outcome of every external call.  `parseResult` is the outcome of
`JSON.parse` on the body; `reviewOutcome` is the outcome of `reviewCode`
per filename (an error for a thrown exception, `Except.ok none` for a
JS `undefined` return); the two posting oracles give each call's
success per filename (and line). -/
structure World where
  bodyText : String
  signatureHeader : Option String
  eventHeader : Option String
  secret : String
  parseResult : Except String Payload
  typeErrorMsg : String
  filesHttp : FilesHttp
  contentHttp : String → ContentHttp
  reviewOutcome : String → Except String (Option String)
  lineCommentOk : String → Nat → Bool
  generalCommentOk : String → Bool

/-- The allow-list of source-code extensions (index.ts:306-319). -/
def codeExtensions : List String :=
  [".js", ".ts", ".jsx", ".tsx", ".py", ".java",
   ".go", ".rb", ".php", ".cs", ".cpp", ".c"]

/-- Whether a filename passes the extension allow-list
(`codeExtensions.some((ext) => file.filename.endsWith(ext))`). -/
def isCodeFile (filename : String) : Bool :=
  codeExtensions.any (fun ext => jsEndsWith filename ext)

/-- The loop body for one changed file (index.ts:321-385): skip deleted
files and non-code extensions; otherwise fetch content, invoke the
review engine, and — unless the review contains `"Looks good"` — parse
it and post either one line comment per finding (each failure caught
per comment) or a single general comment.  A review-engine exception,
or an `undefined` review (on which `review.includes` throws), is caught
at the file boundary. -/
def processFile (w : World) (pr : PRData) (f : PRFile) : FileTrace :=
  if f.status == "deleted" then emptyFileTrace
  else if !(isCodeFile f.filename) then emptyFileTrace
  else
    let content := getFileContent (w.contentHttp f.filename)
    let reviewCall := (f.filename, f.patch, content)
    match w.reviewOutcome f.filename with
    | Except.error _ => ⟨[reviewCall], [], [], []⟩
    | Except.ok none => ⟨[reviewCall], [], [], []⟩
    | Except.ok (some review) =>
      if jsIncludes review "Looks good" then ⟨[reviewCall], [], [], []⟩
      else
        let lineComments := parseLineComments review
        if lineComments.length > 0 then
          ⟨[reviewCall], [review],
           lineComments.map (fun lc =>
             CommentCall.line pr.owner pr.repo pr.number pr.headSha
               f.filename lc.line lc.comment),
           lineComments.map (fun lc => w.lineCommentOk f.filename lc.line)⟩
        else
          ⟨[reviewCall], [review],
           [CommentCall.general pr.owner pr.repo pr.number
             ("**Code Review: " ++ f.filename ++ "**\n\n" ++ review)],
           [w.generalCommentOk f.filename]⟩

/-- Concatenation of per-file traces, in order. -/
def catTraces (fts : List FileTrace) : Trace :=
  ⟨true,
   (fts.map FileTrace.reviewCalls).foldr (fun a b => a ++ b) [],
   (fts.map FileTrace.parserCalls).foldr (fun a b => a ++ b) [],
   (fts.map FileTrace.commentCalls).foldr (fun a b => a ++ b) [],
   (fts.map FileTrace.commentResults).foldr (fun a b => a ++ b) []⟩

/-- The body of a JSON response: an `error` object, a `message` object,
or the completion object with `pr_number` and `files_reviewed`. -/
inductive RespBody where
  | err (msg : String)
  | note (msg : String)
  | completed (prNumber filesReviewed : Nat)
deriving Repr, DecidableEq

/-- An HTTP response: status code and JSON body. -/
structure Response where
  status : Nat
  body : RespBody
deriving Repr, DecidableEq

/-- The `/webhook` handler (index.ts:253-396): check the signature,
route the event, parse the payload, fetch the file list (a failure is
caught by the top-level handler as a 500), loop over the files, and
answer 200 `Review completed` with the full change-set length. -/
def webhookHandler (w : World) : Response × Trace :=
  match w.signatureHeader with
  | none => (⟨401, RespBody.err "No signature provided"⟩, emptyTrace)
  | some signature =>
    if !(verifyWebhookSignature w.bodyText signature w.secret) then
      (⟨401, RespBody.err "Invalid signature"⟩, emptyTrace)
    else if !(w.eventHeader == some "pull_request") then
      (⟨200, RespBody.note "Event ignored"⟩, emptyTrace)
    else
      match w.parseResult with
      | Except.error e => (⟨500, RespBody.err e⟩, emptyTrace)
      | Except.ok payload =>
        if !(match payload.action with
             | some a => ["opened", "synchronize"].contains a
             | none => false) then
          (⟨200, RespBody.note "Action ignored"⟩, emptyTrace)
        else
          match payload.prData with
          | none => (⟨500, RespBody.err w.typeErrorMsg⟩, emptyTrace)
          | some pr =>
            match getPRFiles w.filesHttp with
            | Except.error e =>
              (⟨500, RespBody.err e⟩, ⟨true, [], [], [], []⟩)
            | Except.ok files =>
              if files.length == 0 then
                (⟨200, RespBody.note "No files to review"⟩,
                 ⟨true, [], [], [], []⟩)
              else
                (⟨200, RespBody.completed pr.number files.length⟩,
                 catTraces (files.map (processFile w pr)))

/-! ## Concrete instances

Specific payloads, worlds and responses used to evaluate the model on
closed inputs.
-/

/-- A Gemini response whose only candidate has a `parts[0]` object with
no `text` field. -/
def noTextResponse : GeminiResponse := ⟨some [⟨none, some ⟨some [⟨none⟩]⟩⟩]⟩

/-- A pull-request context for concrete runs. -/
def samplePR : PRData := ⟨42, "octo", "repo", "feature", "abc123"⟩

/-- A parsed `opened` payload for concrete runs. -/
def samplePayload : Payload := ⟨some "opened", some samplePR⟩

/-- A world whose signature header is the valid signature of body
`"body"` under secret `"s"`; the event, payload, files listing, content
fetches, review outcomes and line-posting outcomes are parameters. -/
def mkWorld (event : Option String) (pay : Except String Payload)
    (fh : FilesHttp) (ch : String → ContentHttp)
    (rev : String → Except String (Option String))
    (lok : String → Nat → Bool) : World :=
  ⟨"body", some (signatureFor "s" "body"), event, "s", pay,
   "TypeError: Cannot read properties of undefined", fh, ch, rev, lok,
   fun _ => true⟩

/-- A content fetch that succeeds. -/
def contentOk : String → ContentHttp := fun _ => ⟨false, true, "file content"⟩

/-- A content fetch that fails at the transport level. -/
def contentDown : String → ContentHttp := fun _ => ⟨true, false, ""⟩

/-- Review outcomes per filename used by the concrete worlds. -/
def reviewTexts (fn : String) : Except String (Option String) :=
  if fn == "app.ts" then
    Except.ok (some "- Line 1: use const\n- Line 2: avoid any")
  else if fn == "gen.ts" then Except.ok (some "General advice only")
  else if fn == "clean.ts" then Except.ok (some "Looks good!")
  else if fn == "mix.ts" then Except.ok (some "- Line 3: bug\nLooks good")
  else if fn == "err.ts" then Except.error "Gemini API error: boom"
  else Except.ok (some "ok text")

/-- The change set of the end-to-end example: one deleted file, one
non-code file, one reviewable TypeScript file. -/
def sampleFiles : List PRFile :=
  [⟨"gone.py", "deleted", "dp"⟩, ⟨"README.md", "modified", "dm"⟩,
   ⟨"app.ts", "modified", "diff"⟩]

/-- The happy-path world: valid signature, `pull_request`/`opened`, a
3-file change set, the first line-comment post failing. -/
def worldMain : World :=
  mkWorld (some "pull_request") (Except.ok samplePayload)
    ⟨true, "OK", sampleFiles⟩ contentOk reviewTexts (fun _ n => !(n == 1))

/-- A world whose file listing fails with 404 Not Found. -/
def worldNoFiles : World :=
  mkWorld (some "pull_request") (Except.ok samplePayload)
    ⟨false, "Not Found", []⟩ contentOk reviewTexts (fun _ _ => true)

/-- A world with a review-engine failure on one file and a failing first
line comment on the other. -/
def worldFail : World :=
  mkWorld (some "pull_request") (Except.ok samplePayload)
    ⟨true, "OK", [⟨"err.ts", "modified", "p1"⟩, ⟨"app.ts", "modified", "p2"⟩]⟩
    contentOk reviewTexts (fun _ n => !(n == 1))

/-- A world receiving a `push` event. -/
def worldPush : World :=
  mkWorld (some "push") (Except.ok samplePayload)
    ⟨true, "OK", sampleFiles⟩ contentOk reviewTexts (fun _ _ => true)

/-- A world receiving a `pull_request` event with action `closed`. -/
def worldClosed : World :=
  mkWorld (some "pull_request") (Except.ok ⟨some "closed", some samplePR⟩)
    ⟨true, "OK", sampleFiles⟩ contentOk reviewTexts (fun _ _ => true)

/-- A world whose content endpoint is down. -/
def worldNoContent : World :=
  mkWorld (some "pull_request") (Except.ok samplePayload)
    ⟨true, "OK", sampleFiles⟩ contentDown reviewTexts (fun _ _ => true)

/-! ## Lemmas about the regex matcher -/

/-- The first element surviving `dropWhile` fails the predicate. -/
theorem dropWhile_head_false {p : Char → Bool} {l : List Char} {x : Char}
    {xs : List Char} (h : l.dropWhile p = x :: xs) : p x = false := by
  induction l with
  | nil => simp at h
  | cons c cs ih =>
    rw [List.dropWhile_cons] at h
    by_cases hc : p c = true
    · exact ih (by simpa [hc] using h)
    · simp [hc] at h
      simp [h.1 ▸ (by simpa using hc : p c = false)]

/-- Trimming a list whose head is not whitespace gives a non-empty
list. -/
theorem jsTrimList_ne_nil {x : Char} {xs : List Char}
    (hx : isJsWs x = false) : jsTrimList (x :: xs) ≠ [] := by
  intro h
  unfold jsTrimList at h
  rw [List.dropWhile_cons, hx] at h
  simp only [Bool.false_eq_true, if_false, List.reverse_eq_nil_iff,
    List.dropWhile_eq_nil_iff] at h
  have := h x (by simp)
  simp [hx] at this

/-- Trimming is unaffected by first dropping the leading whitespace. -/
theorem jsTrimList_dropWhile (l : List Char) :
    jsTrimList (l.dropWhile isJsWs) = jsTrimList l := by
  unfold jsTrimList
  rw [List.dropWhile_idempotent]

/-- Characterization of the `\s*(.+)$` matcher: on a rest that still has
a non-whitespace character, it captures everything from that character
on, provided no line terminator follows; on an all-whitespace rest it
backtracks down to the last character alone, provided that one is not a
line terminator. -/
theorem matchTail_eq (cs : List Char) :
    matchTail cs =
      if (cs.dropWhile isJsWs).isEmpty then
        match cs.getLast? with
        | none => none
        | some c => if dotMatches c then some [c] else none
      else if (cs.dropWhile isJsWs).all dotMatches then
        some (cs.dropWhile isJsWs)
      else none := by
  induction cs with
  | nil => simp [matchTail]
  | cons c cs ih =>
    rw [matchTail, List.dropWhile_cons]
    by_cases hc : isJsWs c = true
    · rw [ih]
      simp only [hc, if_true]
      by_cases h1 : (cs.dropWhile isJsWs).isEmpty = true
      · simp only [h1, if_true]
        match hlast : cs.getLast? with
        | none =>
          have hcs : cs = [] := by
            cases cs with
            | nil => rfl
            | cons d ds => simp [List.getLast?_concat] at hlast
          subst hcs
          simp [List.all_cons, dotMatches, isLineTerminator]
        | some l =>
          have hmem : l ∈ cs := by
            obtain ⟨hne, heq⟩ := List.mem_getLast?_eq_getLast
              (show l ∈ cs.getLast? by simp [hlast])
            exact heq ▸ List.getLast_mem hne
          have hlast2 : (c :: cs).getLast? = some l := by
            cases cs with
            | nil => simp at hlast
            | cons d ds => rw [List.getLast?_cons_cons]; exact hlast
          rw [hlast2]
          by_cases hd : dotMatches l = true
          · simp [hd]
          · have : (c :: cs).all dotMatches = false := by
              simp only [List.all_eq_false]
              exact ⟨l, List.mem_cons_of_mem c hmem, by simpa using hd⟩
            simp [hd, this]
      · simp only [h1, if_false]
        by_cases h2 : (cs.dropWhile isJsWs).all dotMatches = true
        · simp [h2]
        · have h2f : (cs.dropWhile isJsWs).all dotMatches = false := by
            simpa using h2
          have : (c :: cs).all dotMatches = false := by
            simp only [List.all_eq_false] at h2f ⊢
            obtain ⟨x, hx, hpx⟩ := h2f
            exact ⟨x, List.mem_cons_of_mem c
              ((List.dropWhile_sublist isJsWs).subset hx), hpx⟩
          simp [h2, this]
    · have hc2 : isJsWs c = false := by simpa using hc
      simp [hc2, List.isEmpty_cons]

/-- The code's guarded use of one regex match agrees with the corrected
declarative reading of a line. -/
theorem lineFinding_eq (ln : List Char) :
    (match regexLineMatch ln with
     | none => none
     | some (ds, t) =>
       let lineNumber := parseIntDigits ds
       let comment := jsTrim ⟨t⟩
       if lineNumber > 0 && !(comment == "") then
         some (⟨lineNumber, comment⟩ : LineComment)
       else none)
    = amendedLineFinding ln := by
  unfold regexLineMatch amendedLineFinding
  cases stripLit markerChars ln with
  | none => rfl
  | some rest =>
    simp only
    by_cases hds : (rest.takeWhile Char.isDigit).isEmpty = true
    · simp [hds]
    · have hds2 : (rest.takeWhile Char.isDigit).isEmpty = false := by
        simpa using hds
      simp only [hds2, Bool.false_eq_true, if_false]
      cases hdw : rest.dropWhile Char.isDigit with
      | nil => rfl
      | cons c tail =>
        by_cases hc : (c == ':') = true
        · simp only [hc, if_true]
          rw [matchTail_eq]
          by_cases hemp : (tail.dropWhile isJsWs).isEmpty = true
          · simp only [hemp, if_true]
            have hallws : ∀ x ∈ tail, isJsWs x = true :=
              List.dropWhile_eq_nil_iff.mp (List.isEmpty_iff.mp hemp)
            match hlast : tail.getLast? with
            | none => simp [hemp]
            | some l =>
              have hmem : l ∈ tail := by
                obtain ⟨hne, heq⟩ := List.mem_getLast?_eq_getLast
                  (show l ∈ tail.getLast? by simp [hlast])
                exact heq ▸ List.getLast_mem hne
              have hlws : isJsWs l = true := hallws l hmem
              by_cases hdot : dotMatches l = true
              · have htrim : jsTrimList [l] = [] := by
                  simp [jsTrimList, hlws]
                have : (jsTrim ⟨[l]⟩ == "") = true := by
                  simp [jsTrim, htrim]
                simp [hdot, this, hemp]
              · have hdot2 : dotMatches l = false := by simpa using hdot
                simp [hdot2, hemp]
          · have hemp2 : (tail.dropWhile isJsWs).isEmpty = false := by
              simpa using hemp
            simp only [hemp2, Bool.false_eq_true, if_false]
            by_cases hall : (tail.dropWhile isJsWs).all dotMatches = true
            · simp only [hall, if_true]
              obtain ⟨x, xs, hxs⟩ : ∃ x xs, tail.dropWhile isJsWs = x :: xs := by
                cases hh : tail.dropWhile isJsWs with
                | nil => rw [hh] at hemp2; simp at hemp2
                | cons x xs => exact ⟨x, xs, rfl⟩
              have hxws : isJsWs x = false := dropWhile_head_false hxs
              have htrimeq : jsTrim ⟨tail.dropWhile isJsWs⟩ = jsTrim ⟨tail⟩ := by
                simp [jsTrim, jsTrimList_dropWhile]
              have hne : jsTrimList (tail.dropWhile isJsWs) ≠ [] := by
                rw [hxs]; exact jsTrimList_ne_nil hxws
              have hcomment : (jsTrim ⟨tail.dropWhile isJsWs⟩ == "") = false := by
                simp only [jsTrim, beq_eq_false_iff_ne]
                intro hh
                exact hne (by simpa [String.ext_iff] using hh)
              rw [htrimeq] at hcomment ⊢
              simp only [hcomment, Bool.not_false, Bool.and_true, hall]
            · have hall2 : (tail.dropWhile isJsWs).all dotMatches = false := by
                simpa using hall
              simp [hall2]
        · have hc2 : (c == ':') = false := by simpa using hc
          simp [hc2]

/-- The parser equals the corrected declarative parser, line by line. -/
theorem parseLineComments_eq_amended (review : String) :
    parseLineComments review
      = (splitOnNl review.data).filterMap amendedLineFinding := by
  unfold parseLineComments
  congr 1
  funext ln
  exact lineFinding_eq ln

/-! ## Lemmas about the signature verifier and substrings -/

/-- A list starts with itself. -/
theorem listIsPre_refl (l : List Char) : listIsPre l l = true := by
  induction l with
  | nil => rfl
  | cons c cs ih => simp [listIsPre, ih]

/-- A list is a substring of anything that appends it on the right. -/
theorem listIsSub_append (pat a : List Char) : listIsSub pat (a ++ pat) = true := by
  induction a with
  | nil =>
    cases pat with
    | nil => rfl
    | cons c cs => simp [listIsSub, listIsPre_refl]
  | cons x a ih => simp [listIsSub, ih]

/-- A string `includes` its own suffix. -/
theorem jsIncludes_append (a b : String) : jsIncludes (a ++ b) b = true := by
  have : (a ++ b).data = a.data ++ b.data := rfl
  rw [jsIncludes, this]
  exact listIsSub_append b.data a.data

/-- The verifier accepts the signature it computes itself. -/
theorem verify_signatureFor (b s : String) :
    verifyWebhookSignature b (signatureFor s b) s = true := by
  simp [verifyWebhookSignature, signatureFor]

/-- Replacing a character of a string by a different one changes the
string. -/
theorem setCharAt_ne (s : String) (i : Nat) (c : Char)
    (h : i < s.data.length) (hne : s.data.getD i c ≠ c) :
    setCharAt s i c ≠ s := by
  intro heq
  apply hne
  have hdata : (s.data.set i c) = s.data := congrArg String.data heq
  have hlen : i < (s.data.set i c).length := by simpa using h
  rw [List.getD_eq_getElem s.data c h]
  calc s.data[i] = (s.data.set i c)[i] := List.getElem_of_eq hdata.symm h
    _ = c := List.getElem_set_self hlen

/-! ## Lemmas about the pipeline -/

/-- A deleted file is skipped without any external call. -/
theorem processFile_deleted (w : World) (pr : PRData) (f : PRFile)
    (h : (f.status == "deleted") = true) :
    processFile w pr f = emptyFileTrace := by
  simp [processFile, h]

/-- A file whose extension is not allow-listed is skipped without any
external call. -/
theorem processFile_notCode (w : World) (pr : PRData) (f : PRFile)
    (h1 : (f.status == "deleted") = false) (h2 : isCodeFile f.filename = false) :
    processFile w pr f = emptyFileTrace := by
  simp [processFile, h1, h2]

/-- An eligible file is sent to the review engine exactly once, with its
patch and with whatever the content fetch produced. -/
theorem processFile_reviewCalls (w : World) (pr : PRData) (f : PRFile)
    (h1 : (f.status == "deleted") = false) (h2 : isCodeFile f.filename = true) :
    (processFile w pr f).reviewCalls
      = [(f.filename, f.patch, getFileContent (w.contentHttp f.filename))] := by
  simp only [processFile, h1, h2, Bool.false_eq_true, if_false, Bool.not_true]
  cases w.reviewOutcome f.filename with
  | error e => rfl
  | ok o =>
    cases o with
    | none => rfl
    | some review =>
      by_cases hinc : jsIncludes review "Looks good" = true
      · simp [hinc]
      · have hinc2 : jsIncludes review "Looks good" = false := by simpa using hinc
        by_cases hlen : (parseLineComments review).length > 0
        · simp [hinc2, hlen]
        · simp [hinc2, hlen]

/-- Every review text the parser is invoked on lacks the clean-result
substring. -/
theorem processFile_parserCalls_clean (w : World) (pr : PRData) (f : PRFile) :
    ∀ t ∈ (processFile w pr f).parserCalls, jsIncludes t "Looks good" = false := by
  intro t ht
  by_cases hd : (f.status == "deleted") = true
  · rw [processFile_deleted w pr f hd] at ht
    simp [emptyFileTrace] at ht
  · have hd2 : (f.status == "deleted") = false := by simpa using hd
    by_cases hcf : isCodeFile f.filename = true
    · simp only [processFile, hd2, hcf, Bool.false_eq_true, if_false,
        Bool.not_true] at ht
      cases hrev : w.reviewOutcome f.filename with
      | error e => rw [hrev] at ht; simp at ht
      | ok o =>
        rw [hrev] at ht
        cases o with
        | none => simp at ht
        | some review =>
          by_cases hinc : jsIncludes review "Looks good" = true
          · simp [hinc] at ht
          · have hinc2 : jsIncludes review "Looks good" = false := by
              simpa using hinc
            by_cases hlen : (parseLineComments review).length > 0
            · simp [hinc2, hlen] at ht
              exact ht ▸ hinc2
            · simp [hinc2, hlen] at ht
              exact ht ▸ hinc2
    · have hcf2 : isCodeFile f.filename = false := by simpa using hcf
      rw [processFile_notCode w pr f hd2 hcf2] at ht
      simp [emptyFileTrace] at ht

/-- The handler, once the signature and routing checks have passed, is
the file-listing step followed by the loop. -/
theorem handler_core (w : World) (sig : String) (p : Payload) (pr : PRData)
    (hsig : w.signatureHeader = some sig)
    (hvalid : verifyWebhookSignature w.bodyText sig w.secret = true)
    (hev : w.eventHeader = some "pull_request")
    (hparse : w.parseResult = Except.ok p)
    (hact : p.action = some "opened" ∨ p.action = some "synchronize")
    (hpr : p.prData = some pr) :
    webhookHandler w =
      match getPRFiles w.filesHttp with
      | Except.error e => (⟨500, RespBody.err e⟩, ⟨true, [], [], [], []⟩)
      | Except.ok files =>
        if files.length == 0 then
          (⟨200, RespBody.note "No files to review"⟩, ⟨true, [], [], [], []⟩)
        else
          (⟨200, RespBody.completed pr.number files.length⟩,
           catTraces (files.map (processFile w pr))) := by
  rcases hact with h | h <;>
    simp [webhookHandler, hsig, hvalid, hev, hparse, h, hpr]

/-- The handler under a happy path: non-empty successful file listing. -/
theorem handler_completed (w : World) (sig : String) (p : Payload) (pr : PRData)
    (hsig : w.signatureHeader = some sig)
    (hvalid : verifyWebhookSignature w.bodyText sig w.secret = true)
    (hev : w.eventHeader = some "pull_request")
    (hparse : w.parseResult = Except.ok p)
    (hact : p.action = some "opened" ∨ p.action = some "synchronize")
    (hpr : p.prData = some pr)
    (hok : w.filesHttp.ok = true)
    (hne : w.filesHttp.files ≠ []) :
    webhookHandler w =
      (⟨200, RespBody.completed pr.number w.filesHttp.files.length⟩,
       catTraces (w.filesHttp.files.map (processFile w pr))) := by
  rw [handler_core w sig p pr hsig hvalid hev hparse hact hpr]
  have hfiles : getPRFiles w.filesHttp = Except.ok w.filesHttp.files := by
    simp [getPRFiles, hok]
  rw [hfiles]
  have hlen : (w.filesHttp.files.length == 0) = false := by
    simpa using hne
  simp [hlen]

/-- Membership in a fold of appends comes from one of the lists. -/
theorem mem_foldr_append {α : Type} {x : α} :
    ∀ {ls : List (List α)}, x ∈ ls.foldr (fun a b => a ++ b) [] →
      ∃ l, l ∈ ls ∧ x ∈ l := by
  intro ls
  induction ls with
  | nil => intro h; simp at h
  | cons l ls ih =>
    intro h
    rcases List.mem_append.mp h with h1 | h2
    · exact ⟨l, List.mem_cons_self l ls, h1⟩
    · obtain ⟨l2, hl2, hx⟩ := ih h2
      exact ⟨l2, List.mem_cons_of_mem l hl2, hx⟩

/-- The concatenated review-engine invocations of a run are exactly one
per non-deleted, allow-listed file, carrying its patch and fetched
content. -/
theorem catTraces_reviewCalls (w : World) (pr : PRData) :
    ∀ files : List PRFile,
      (catTraces (files.map (processFile w pr))).reviewCalls
        = (files.filter
            (fun f => !(f.status == "deleted") && isCodeFile f.filename)).map
            (fun f => (f.filename, f.patch,
              getFileContent (w.contentHttp f.filename))) := by
  intro files
  show ((files.map (processFile w pr)).map FileTrace.reviewCalls).foldr
      (fun a b => a ++ b) [] = _
  induction files with
  | nil => rfl
  | cons f fs ih =>
    simp only [List.map_cons, List.foldr_cons, List.filter_cons]
    by_cases hd : (f.status == "deleted") = true
    · have hcond : (!(f.status == "deleted") && isCodeFile f.filename) = false := by
        simp [hd]
      rw [processFile_deleted w pr f hd]
      simpa [emptyFileTrace, hcond] using ih
    · have hd2 : (f.status == "deleted") = false := by simpa using hd
      by_cases hcf : isCodeFile f.filename = true
      · have hcond : (!(f.status == "deleted") && isCodeFile f.filename) = true := by
          simp [hd2, hcf]
        rw [show FileTrace.reviewCalls (processFile w pr f)
              = [(f.filename, f.patch, getFileContent (w.contentHttp f.filename))]
            from processFile_reviewCalls w pr f hd2 hcf]
        simpa [hcond] using ih
      · have hcf2 : isCodeFile f.filename = false := by simpa using hcf
        have hcond : (!(f.status == "deleted") && isCodeFile f.filename) = false := by
          simp [hd2, hcf2]
        rw [processFile_notCode w pr f hd2 hcf2]
        simpa [emptyFileTrace, hcond] using ih

/-- Unfolding of the parser-invocation field of a concatenated trace. -/
theorem catTraces_parserCalls (fts : List FileTrace) :
    (catTraces fts).parserCalls
      = (fts.map FileTrace.parserCalls).foldr (fun a b => a ++ b) [] := rfl

/-- A run's trace either has no parser invocation at all or is the
concatenation of the per-file traces of some loop. -/
theorem handler_trace_cases (w : World) :
    (webhookHandler w).2.parserCalls = [] ∨
    ∃ (pr : PRData) (files : List PRFile),
      (webhookHandler w).2 = catTraces (files.map (processFile w pr)) := by
  unfold webhookHandler
  split
  · left; rfl
  · split
    · left; rfl
    · split
      · left; rfl
      · split
        · left; rfl
        · split
          · left; rfl
          · split
            · left; rfl
            · split
              · left; rfl
              · split
                · left; rfl
                · right; exact ⟨_, _, rfl⟩

/-- Every review text the parser is invoked on during a whole run lacks
the clean-result substring. -/
theorem handler_parserCalls_clean (w : World) :
    ∀ t ∈ (webhookHandler w).2.parserCalls, jsIncludes t "Looks good" = false := by
  intro t ht
  rcases handler_trace_cases w with h | ⟨pr, files, h⟩
  · rw [h] at ht; simp at ht
  · rw [h, catTraces_parserCalls] at ht
    obtain ⟨l, hl, htl⟩ := mem_foldr_append ht
    obtain ⟨ft, hft, hfteq⟩ := List.mem_map.mp hl
    obtain ⟨f, hf, hfeq⟩ := List.mem_map.mp hft
    exact processFile_parserCalls_clean w pr f t (by rw [hfeq, hfteq]; exact htl)

/-! ## The claims -/

/-- Claim C2, counterexample: the line `- Line 5: bad` followed by a
carriage return (as left behind on every line of a CRLF review split on
`"\n"`) satisfies the claim's condition — it starts with the marker, a
positive integer, a colon, and text that is non-empty after trimming —
yet `parseLineComments` produces no finding for it, because the regex
`(.+)$` cannot match across the carriage return. -/
theorem c2_parser_counterexample :
    specLineFinding ("- Line 5: bad\r").data = some ⟨5, "bad"⟩ ∧
    parseLineComments "- Line 5: bad\r" = [] :=
  ⟨by decide, by decide⟩

/-- Claim C2, amended: `parseLineComments` returns exactly one finding
per input line that starts with `- Line `, a positive integer, a colon,
and trailing text that — after its leading whitespace — is non-empty and
free of line-terminator characters, the finding holding that integer
and the trimmed text; all other lines contribute nothing, the function
is total, and the claim's example inputs evaluate as stated. -/
theorem c2_parser_amended :
    (∀ review : String,
      parseLineComments review
        = (splitOnNl review.data).filterMap amendedLineFinding) ∧
    parseLineComments
        "- Line 12: Missing null check\n- Line 7: Unused variable\nSome other prose"
      = [⟨12, "Missing null check"⟩, ⟨7, "Unused variable"⟩] ∧
    parseLineComments "Looks good!" = [] ∧
    parseLineComments "- Line 0: bad" = [] ∧
    parseLineComments "- Line abc: bad" = [] :=
  ⟨parseLineComments_eq_amended, by decide, by decide, by decide, by decide⟩

/-- Claim C3: the verifier compares the supplied token, by exact string
equality, to `sha256=` followed by the hex HMAC-SHA-256 of the body
keyed by the secret; the token it computes itself is accepted, any other
token — in particular any single-character mutation of the valid one —
is rejected, and a body whose digest differs from the original's is
rejected under the original body's token. -/
theorem c3_signature_verifier (b s : String) :
    (∀ t : String, verifyWebhookSignature b t s = true ↔ t = signatureFor s b) ∧
    verifyWebhookSignature b (signatureFor s b) s = true ∧
    (∀ (i : Nat) (c : Char), i < (signatureFor s b).data.length →
      (signatureFor s b).data.getD i c ≠ c →
      verifyWebhookSignature b (setCharAt (signatureFor s b) i c) s = false) ∧
    (∀ b2 : String, hmacHex s b2 ≠ hmacHex s b →
      verifyWebhookSignature b2 (signatureFor s b) s = false) := by
  refine ⟨?_, verify_signatureFor b s, ?_, ?_⟩
  · intro t
    show (t == signatureFor s b) = true ↔ t = signatureFor s b
    exact beq_iff_eq
  · intro i c h hne
    show (setCharAt (signatureFor s b) i c == signatureFor s b) = false
    exact beq_eq_false_iff_ne.mpr (setCharAt_ne _ i c h hne)
  · intro b2 hne
    show (signatureFor s b == signatureFor s b2) = false
    refine beq_eq_false_iff_ne.mpr ?_
    intro heq
    apply hne
    have hdata : ("sha256=" ++ hmacHex s b).data
        = ("sha256=" ++ hmacHex s b2).data := congrArg String.data heq
    rw [String.data_append, String.data_append] at hdata
    have h2 := List.append_cancel_left hdata
    exact congrArg String.mk h2.symm

set_option maxRecDepth 4000000 in
/-- Witness for C3 at body `"a"`, secret `"k"`: the valid token is
accepted; flipping its ninth character to `Z` (which never occurs in a
lowercase hex digest) is rejected; and the one-byte body change to
`"b"`, which changes the digest, is rejected under the old token. -/
theorem c3_signature_verifier_witness :
    verifyWebhookSignature "a" (signatureFor "k" "a") "k" = true ∧
    verifyWebhookSignature "a" (setCharAt (signatureFor "k" "a") 8 'Z') "k" = false ∧
    verifyWebhookSignature "b" (signatureFor "k" "a") "k" = false := by
  refine ⟨(c3_signature_verifier "a" "k").2.1, ?_, ?_⟩
  · exact (c3_signature_verifier "a" "k").2.2.1 8 'Z' (by decide) (by decide)
  · exact (c3_signature_verifier "a" "k").2.2.2 "b" (by decide)

/-- Claim C4, counterexample: on a response whose only candidate has a
`parts[0]` object without a `text` field, `reviewCode` returns the
absent (`undefined`) value, not the fixed generic fallback message the
claim promises. -/
theorem c4_response_counterexample :
    handleGeminiResponse noTextResponse = Except.ok none ∧
    (Except.ok none : Except String (Option String))
      ≠ Except.ok (some fallbackMessage) := by
  refine ⟨rfl, ?_⟩
  intro h
  simp at h

/-- Claim C4, amended: the response handling is the four-case machine —
no candidate fails with the review-service error, a first candidate
marked `MAX_TOKENS` returns the fixed truncation message (which does not
read as a clean result), a present `parts[0]` returns its `text` value
verbatim (the absent value when the `text` field is missing), and a
missing `content`, `parts` or `parts[0]` returns the fixed generic
fallback message. -/
theorem c4_response_machine :
    (∀ data : GeminiResponse, handleGeminiResponse data = geminiSpecResult data) ∧
    jsIncludes truncationMessage "Looks good" = false := by
  refine ⟨?_, by decide⟩
  intro data
  obtain ⟨cands⟩ := data
  cases cands with
  | none => rfl
  | some l =>
    cases l with
    | nil => rfl
    | cons c rest =>
      obtain ⟨fr, content⟩ := c
      by_cases hfr : (fr == some "MAX_TOKENS") = true
      · simp [handleGeminiResponse, geminiSpecResult, firstCandidate, hfr]
      · have hfr2 : (fr == some "MAX_TOKENS") = false := by simpa using hfr
        cases content with
        | none =>
          simp [handleGeminiResponse, geminiSpecResult, firstCandidate,
            firstPart, hfr2]
        | some ct =>
          obtain ⟨parts⟩ := ct
          cases parts with
          | none =>
            simp [handleGeminiResponse, geminiSpecResult, firstCandidate,
              firstPart, hfr2]
          | some ps =>
            cases ps with
            | nil =>
              simp [handleGeminiResponse, geminiSpecResult, firstCandidate,
                firstPart, hfr2]
            | cons p ps2 =>
              simp [handleGeminiResponse, geminiSpecResult, firstCandidate,
                firstPart, hfr2]

/-- Claim C1: for a reviewed file — not deleted, allow-listed, with a
review text produced — a review containing `Looks good` issues no
comment call; otherwise at least one parsed finding issues exactly one
line-comment call per finding and no general call, and no finding
issues exactly one general call whose body is the file header plus the
raw review; general and line calls are never mixed. -/
theorem c1_per_file_publishing_policy (w : World) (pr : PRData) (f : PRFile)
    (review : String)
    (hd : (f.status == "deleted") = false)
    (hcf : isCodeFile f.filename = true)
    (hrev : w.reviewOutcome f.filename = Except.ok (some review)) :
    (jsIncludes review "Looks good" = true →
      (processFile w pr f).commentCalls = []) ∧
    (jsIncludes review "Looks good" = false → parseLineComments review ≠ [] →
      (processFile w pr f).commentCalls
        = (parseLineComments review).map (fun lc =>
            CommentCall.line pr.owner pr.repo pr.number pr.headSha
              f.filename lc.line lc.comment)) ∧
    (jsIncludes review "Looks good" = false → parseLineComments review = [] →
      (processFile w pr f).commentCalls
        = [CommentCall.general pr.owner pr.repo pr.number
            ("**Code Review: " ++ f.filename ++ "**\n\n" ++ review)]) ∧
    ((processFile w pr f).commentCalls.all CommentCall.isGeneral = true ∨
     (processFile w pr f).commentCalls.all
       (fun c => !(CommentCall.isGeneral c)) = true) := by
  refine ⟨?_, ?_, ?_, ?_⟩
  · intro hinc
    simp [processFile, hd, hcf, hrev, hinc]
  · intro hinc hne
    have hlen : (parseLineComments review).length > 0 := List.length_pos.mpr hne
    simp [processFile, hd, hcf, hrev, hinc, hlen]
  · intro hinc hnil
    simp [processFile, hd, hcf, hrev, hinc, hnil]
  · by_cases hinc : jsIncludes review "Looks good" = true
    · left
      simp [processFile, hd, hcf, hrev, hinc]
    · have hinc2 : jsIncludes review "Looks good" = false := by simpa using hinc
      by_cases hlen : (parseLineComments review).length > 0
      · right
        simp only [processFile, hd, hcf, hrev, hinc2, hlen, Bool.false_eq_true,
          if_false, if_true, Bool.not_true]
        rw [List.all_eq_true]
        intro c hc
        obtain ⟨lc, _, rfl⟩ := List.mem_map.mp (by simpa using hc)
        rfl
      · left
        simp [processFile, hd, hcf, hrev, hinc2, hlen, CommentCall.isGeneral]

/-- Witness for C1 in the happy-path world: the findings file gets its
two line comments and nothing else, the prose file gets the single
composed general comment, and the clean file gets nothing. -/
theorem c1_per_file_publishing_policy_witness :
    (processFile worldMain samplePR ⟨"app.ts", "modified", "diff"⟩).commentCalls
      = [CommentCall.line "octo" "repo" 42 "abc123" "app.ts" 1 "use const",
         CommentCall.line "octo" "repo" 42 "abc123" "app.ts" 2 "avoid any"] ∧
    (processFile worldMain samplePR ⟨"gen.ts", "modified", "d"⟩).commentCalls
      = [CommentCall.general "octo" "repo" 42
          "**Code Review: gen.ts**\n\nGeneral advice only"] ∧
    (processFile worldMain samplePR ⟨"clean.ts", "modified", "d"⟩).commentCalls
      = [] := by
  refine ⟨?_, ?_, ?_⟩
  · exact ((c1_per_file_publishing_policy worldMain samplePR
      ⟨"app.ts", "modified", "diff"⟩ "- Line 1: use const\n- Line 2: avoid any"
      (by decide) (by decide) rfl).2.1 (by decide) (by decide)).trans (by decide)
  · exact ((c1_per_file_publishing_policy worldMain samplePR
      ⟨"gen.ts", "modified", "d"⟩ "General advice only"
      (by decide) (by decide) rfl).2.2.1 (by decide) (by decide)).trans (by decide)
  · exact (c1_per_file_publishing_policy worldMain samplePR
      ⟨"clean.ts", "modified", "d"⟩ "Looks good!"
      (by decide) (by decide) rfl).1 (by decide)

/-- Claim C5: once a run reaches the loop, the response is the 200
completion whatever the per-file oracles answer; a review-engine failure
on a file leaves that file without comment calls (and the run still
completes); and on a file with findings every finding's line comment is
attempted with its own outcome, whatever the posting failures. -/
theorem c5_failure_isolation (w : World) (sig : String) (p : Payload)
    (pr : PRData)
    (hsig : w.signatureHeader = some sig)
    (hvalid : verifyWebhookSignature w.bodyText sig w.secret = true)
    (hev : w.eventHeader = some "pull_request")
    (hparse : w.parseResult = Except.ok p)
    (hact : p.action = some "opened" ∨ p.action = some "synchronize")
    (hpr : p.prData = some pr)
    (hok : w.filesHttp.ok = true)
    (hne : w.filesHttp.files ≠ []) :
    (webhookHandler w).1
      = ⟨200, RespBody.completed pr.number w.filesHttp.files.length⟩ ∧
    (∀ (f : PRFile) (e : String),
      w.reviewOutcome f.filename = Except.error e →
      (processFile w pr f).commentCalls = []) ∧
    (∀ (f : PRFile) (review : String),
      (f.status == "deleted") = false → isCodeFile f.filename = true →
      w.reviewOutcome f.filename = Except.ok (some review) →
      jsIncludes review "Looks good" = false → parseLineComments review ≠ [] →
      (processFile w pr f).commentCalls.length
          = (parseLineComments review).length ∧
      (processFile w pr f).commentResults
          = (parseLineComments review).map
              (fun lc => w.lineCommentOk f.filename lc.line)) := by
  refine ⟨?_, ?_, ?_⟩
  · rw [handler_completed w sig p pr hsig hvalid hev hparse hact hpr hok hne]
  · intro f e hrev
    by_cases hd : (f.status == "deleted") = true
    · simp [processFile_deleted w pr f hd, emptyFileTrace]
    · have hd2 : (f.status == "deleted") = false := by simpa using hd
      by_cases hcf : isCodeFile f.filename = true
      · simp [processFile, hd2, hcf, hrev]
      · have hcf2 : isCodeFile f.filename = false := by simpa using hcf
        simp [processFile_notCode w pr f hd2 hcf2, emptyFileTrace]
  · intro f review hd hcf hrev hinc hne2
    have hlen : (parseLineComments review).length > 0 := List.length_pos.mpr hne2
    constructor <;> simp [processFile, hd, hcf, hrev, hinc, hlen]

/-- Witness for C5: in a world where one file's review throws and the
other file's first line comment fails to post, the run still answers
200 with both files counted, the failed file issues no comment, and
both of the other file's findings are attempted, the first failing. -/
theorem c5_failure_isolation_witness :
    (webhookHandler worldFail).1 = ⟨200, RespBody.completed 42 2⟩ ∧
    (processFile worldFail samplePR ⟨"err.ts", "modified", "p1"⟩).commentCalls
      = [] ∧
    (processFile worldFail samplePR
      ⟨"app.ts", "modified", "p2"⟩).commentCalls.length = 2 ∧
    (processFile worldFail samplePR
      ⟨"app.ts", "modified", "p2"⟩).commentResults = [false, true] := by
  have h := c5_failure_isolation worldFail (signatureFor "s" "body")
    samplePayload samplePR rfl (verify_signatureFor "body" "s") rfl rfl
    (Or.inl rfl) rfl rfl (by decide)
  have h3 := h.2.2 ⟨"app.ts", "modified", "p2"⟩
    "- Line 1: use const\n- Line 2: avoid any" (by decide) (by decide) rfl
    (by decide) (by decide)
  exact ⟨h.1, h.2.1 ⟨"err.ts", "modified", "p1"⟩ "Gemini API error: boom" rfl,
    h3.1.trans (by decide), h3.2.trans (by decide)⟩

/-- Claim C6: under a valid signature and a well-formed payload, the
file listing is attempted exactly when the event header is
`pull_request` and the action is `opened` or `synchronize`; any other
event answers 200 `Event ignored` and any other action answers 200
`Action ignored`, both without reaching the listing. -/
theorem c6_event_routing (w : World) (sig : String) (p : Payload) (a : String)
    (pr : PRData)
    (hsig : w.signatureHeader = some sig)
    (hvalid : verifyWebhookSignature w.bodyText sig w.secret = true)
    (hparse : w.parseResult = Except.ok p)
    (ha : p.action = some a)
    (hpr : p.prData = some pr) :
    ((webhookHandler w).2.fetchAttempted = true ↔
      (w.eventHeader = some "pull_request" ∧
        (a = "opened" ∨ a = "synchronize"))) ∧
    (w.eventHeader ≠ some "pull_request" →
      (webhookHandler w).1 = ⟨200, RespBody.note "Event ignored"⟩ ∧
      (webhookHandler w).2.fetchAttempted = false) ∧
    (w.eventHeader = some "pull_request" → a ≠ "opened" → a ≠ "synchronize" →
      (webhookHandler w).1 = ⟨200, RespBody.note "Action ignored"⟩ ∧
      (webhookHandler w).2.fetchAttempted = false) := by
  have hev_ig : ∀ _ : w.eventHeader ≠ some "pull_request",
      webhookHandler w = (⟨200, RespBody.note "Event ignored"⟩, emptyTrace) := by
    intro hevne
    have hne : (w.eventHeader == some "pull_request") = false :=
      beq_eq_false_iff_ne.mpr hevne
    simp [webhookHandler, hsig, hvalid, hne]
  have hact_ig : w.eventHeader = some "pull_request" → a ≠ "opened" →
      a ≠ "synchronize" →
      webhookHandler w = (⟨200, RespBody.note "Action ignored"⟩, emptyTrace) := by
    intro hevent h1 h2
    simp [webhookHandler, hsig, hvalid, hevent, hparse, ha, h1, h2, hpr]
  have hproc : w.eventHeader = some "pull_request" →
      (a = "opened" ∨ a = "synchronize") →
      (webhookHandler w).2.fetchAttempted = true := by
    intro hevent hao
    rw [handler_core w sig p pr hsig hvalid hevent hparse
      (hao.imp (fun h2 => by rw [ha, h2]) (fun h2 => by rw [ha, h2])) hpr]
    cases getPRFiles w.filesHttp with
    | error e => rfl
    | ok files =>
      by_cases hlen : (files.length == 0) = true
      · simp [hlen]
      · have hlen2 : (files.length == 0) = false := by simpa using hlen
        simp [hlen2, catTraces]
  refine ⟨⟨?_, fun hok => hproc hok.1 hok.2⟩, ?_, ?_⟩
  · intro hfetch
    by_cases hevent : w.eventHeader = some "pull_request"
    · refine ⟨hevent, ?_⟩
      by_cases h1 : a = "opened"
      · exact Or.inl h1
      · by_cases h2 : a = "synchronize"
        · exact Or.inr h2
        · rw [hact_ig hevent h1 h2] at hfetch
          simp [emptyTrace] at hfetch
    · rw [hev_ig hevent] at hfetch
      simp [emptyTrace] at hfetch
  · intro hevne
    rw [hev_ig hevne]
    exact ⟨rfl, rfl⟩
  · intro hevent h1 h2
    rw [hact_ig hevent h1 h2]
    exact ⟨rfl, rfl⟩

/-- Witness for C6: a `push` event is ignored, a `closed` action is
ignored, and the `opened` pull request proceeds to the file listing. -/
theorem c6_event_routing_witness :
    (webhookHandler worldPush).1 = ⟨200, RespBody.note "Event ignored"⟩ ∧
    (webhookHandler worldClosed).1 = ⟨200, RespBody.note "Action ignored"⟩ ∧
    (webhookHandler worldMain).2.fetchAttempted = true := by
  refine ⟨?_, ?_, ?_⟩
  · exact ((c6_event_routing worldPush (signatureFor "s" "body") samplePayload
      "opened" samplePR rfl (verify_signatureFor "body" "s") rfl rfl rfl).2.1
      (by decide)).1
  · exact ((c6_event_routing worldClosed (signatureFor "s" "body")
      ⟨some "closed", some samplePR⟩ "closed" samplePR rfl
      (verify_signatureFor "body" "s") rfl rfl rfl).2.2
      rfl (by decide) (by decide)).1
  · exact (c6_event_routing worldMain (signatureFor "s" "body") samplePayload
      "opened" samplePR rfl (verify_signatureFor "body" "s") rfl rfl rfl).1.mpr
      ⟨rfl, Or.inl rfl⟩

/-- Claim C7: in a completed run the review engine is invoked exactly
on the non-deleted files with an allow-listed extension, in change-set
order, while the response reports the full change-set length. -/
theorem c7_file_selection (w : World) (sig : String) (p : Payload)
    (pr : PRData)
    (hsig : w.signatureHeader = some sig)
    (hvalid : verifyWebhookSignature w.bodyText sig w.secret = true)
    (hev : w.eventHeader = some "pull_request")
    (hparse : w.parseResult = Except.ok p)
    (hact : p.action = some "opened" ∨ p.action = some "synchronize")
    (hpr : p.prData = some pr)
    (hok : w.filesHttp.ok = true)
    (hne : w.filesHttp.files ≠ []) :
    (webhookHandler w).2.reviewCalls
      = (w.filesHttp.files.filter
          (fun f => !(f.status == "deleted") && isCodeFile f.filename)).map
          (fun f => (f.filename, f.patch,
            getFileContent (w.contentHttp f.filename))) ∧
    (webhookHandler w).1
      = ⟨200, RespBody.completed pr.number w.filesHttp.files.length⟩ := by
  rw [handler_completed w sig p pr hsig hvalid hev hparse hact hpr hok hne]
  exact ⟨catTraces_reviewCalls w pr w.filesHttp.files, rfl⟩

/-- Witness for C7, the claim's end-to-end example: of the 3 changed
files — one deleted, one `.md`, one `.ts` — only the `.ts` file reaches
the review engine, yet the response reports `files_reviewed: 3`. -/
theorem c7_file_selection_witness :
    (webhookHandler worldMain).2.reviewCalls
      = [("app.ts", "diff", some "file content")] ∧
    (webhookHandler worldMain).1 = ⟨200, RespBody.completed 42 3⟩ := by
  have h := c7_file_selection worldMain (signatureFor "s" "body") samplePayload
    samplePR rfl (verify_signatureFor "body" "s") rfl rfl (Or.inl rfl) rfl rfl
    (by decide)
  exact ⟨h.1.trans (by decide), h.2⟩

/-- Claim C8: a non-success file-listing response makes `getPRFiles`
throw an error carrying the status text, the handler answers 500 with
that error message — which contains the status text — and the run
issues no comment call. -/
theorem c8_filelist_fatal (w : World) (sig : String) (p : Payload)
    (pr : PRData)
    (hsig : w.signatureHeader = some sig)
    (hvalid : verifyWebhookSignature w.bodyText sig w.secret = true)
    (hev : w.eventHeader = some "pull_request")
    (hparse : w.parseResult = Except.ok p)
    (hact : p.action = some "opened" ∨ p.action = some "synchronize")
    (hpr : p.prData = some pr)
    (hfail : w.filesHttp.ok = false) :
    getPRFiles w.filesHttp
      = Except.error ("Failed to fetch PR files: " ++ w.filesHttp.statusText) ∧
    (webhookHandler w).1
      = ⟨500, RespBody.err
          ("Failed to fetch PR files: " ++ w.filesHttp.statusText)⟩ ∧
    jsIncludes ("Failed to fetch PR files: " ++ w.filesHttp.statusText)
      w.filesHttp.statusText = true ∧
    (webhookHandler w).2.commentCalls = [] := by
  have hget : getPRFiles w.filesHttp
      = Except.error ("Failed to fetch PR files: " ++ w.filesHttp.statusText) := by
    simp [getPRFiles, hfail]
  rw [handler_core w sig p pr hsig hvalid hev hparse hact hpr, hget]
  exact ⟨rfl, rfl,
    jsIncludes_append "Failed to fetch PR files: " w.filesHttp.statusText, rfl⟩

/-- Witness for C8: a 404 `Not Found` file listing produces the 500
response carrying the status text, and no comment call. -/
theorem c8_filelist_fatal_witness :
    (webhookHandler worldNoFiles).1
      = ⟨500, RespBody.err "Failed to fetch PR files: Not Found"⟩ ∧
    (webhookHandler worldNoFiles).2.commentCalls = [] := by
  have h := c8_filelist_fatal worldNoFiles (signatureFor "s" "body")
    samplePayload samplePR rfl (verify_signatureFor "body" "s") rfl rfl
    (Or.inl rfl) rfl rfl
  exact ⟨h.2.1.trans (by decide), h.2.2.2⟩

/-- Claim C9: `getFileContent` answers absent — never an error — on a
transport failure or a non-success response and the body on success;
and an eligible file whose content fetch came back absent still reaches
the review engine exactly once, with its diff and absent content. -/
theorem c9_content_nonfatal :
    (∀ r : ContentHttp,
      (r.throws = true → getFileContent r = none) ∧
      (r.ok = false → getFileContent r = none) ∧
      (r.throws = false → r.ok = true → getFileContent r = some r.body)) ∧
    (∀ (w : World) (pr : PRData) (f : PRFile),
      (f.status == "deleted") = false → isCodeFile f.filename = true →
      getFileContent (w.contentHttp f.filename) = none →
      (processFile w pr f).reviewCalls = [(f.filename, f.patch, none)]) := by
  constructor
  · intro r
    refine ⟨fun h => by simp [getFileContent, h], fun h => ?_,
      fun h1 h2 => by simp [getFileContent, h1, h2]⟩
    simp [getFileContent, h]
  · intro w pr f hd hcf hcontent
    rw [processFile_reviewCalls w pr f hd hcf, hcontent]

/-- Witness for C9: the three fetch outcomes, and the world whose
content endpoint is down still sending `app.ts`'s diff to review with
absent content. -/
theorem c9_content_nonfatal_witness :
    getFileContent ⟨true, false, ""⟩ = none ∧
    getFileContent ⟨false, false, "x"⟩ = none ∧
    getFileContent ⟨false, true, "body text"⟩ = some "body text" ∧
    (processFile worldNoContent samplePR
      ⟨"app.ts", "modified", "diff"⟩).reviewCalls = [("app.ts", "diff", none)] :=
  ⟨(c9_content_nonfatal.1 ⟨true, false, ""⟩).1 rfl,
   (c9_content_nonfatal.1 ⟨false, false, "x"⟩).2.1 rfl,
   (c9_content_nonfatal.1 ⟨false, true, "body text"⟩).2.2 rfl rfl,
   c9_content_nonfatal.2 worldNoContent samplePR ⟨"app.ts", "modified", "diff"⟩
     (by decide) (by decide) rfl⟩

/-- Claim C10: a review text containing `Looks good` — even one that
also contains well-formed finding lines — publishes nothing for its
file and is never given to the parser; indeed every text the parser is
invoked on during any run lacks the substring. -/
theorem c10_clean_check_first :
    (∀ (w : World) (pr : PRData) (f : PRFile) (review : String),
      w.reviewOutcome f.filename = Except.ok (some review) →
      jsIncludes review "Looks good" = true →
      (processFile w pr f).commentCalls = [] ∧
      (processFile w pr f).parserCalls = []) ∧
    (∀ w : World, ∀ t ∈ (webhookHandler w).2.parserCalls,
      jsIncludes t "Looks good" = false) := by
  constructor
  · intro w pr f review hrev hinc
    by_cases hd : (f.status == "deleted") = true
    · simp [processFile_deleted w pr f hd, emptyFileTrace]
    · have hd2 : (f.status == "deleted") = false := by simpa using hd
      by_cases hcf : isCodeFile f.filename = true
      · constructor <;> simp [processFile, hd2, hcf, hrev, hinc]
      · have hcf2 : isCodeFile f.filename = false := by simpa using hcf
        simp [processFile_notCode w pr f hd2 hcf2, emptyFileTrace]
  · exact handler_parserCalls_clean

/-- Witness for C10: the file whose review mixes a well-formed finding
line with `Looks good` gets neither comments nor a parser call, and a
text the parser did receive in the happy-path run lacks the
substring. -/
theorem c10_clean_check_first_witness :
    (processFile worldMain samplePR ⟨"mix.ts", "modified", "d"⟩).commentCalls
      = [] ∧
    (processFile worldMain samplePR ⟨"mix.ts", "modified", "d"⟩).parserCalls
      = [] ∧
    jsIncludes "- Line 1: use const\n- Line 2: avoid any" "Looks good"
      = false := by
  have h1 := c10_clean_check_first.1 worldMain samplePR
    ⟨"mix.ts", "modified", "d"⟩ "- Line 3: bug\nLooks good" rfl (by decide)
  refine ⟨h1.1, h1.2, ?_⟩
  have hmem : "- Line 1: use const\n- Line 2: avoid any"
      ∈ (webhookHandler worldMain).2.parserCalls := by
    rw [handler_completed worldMain (signatureFor "s" "body") samplePayload
      samplePR rfl (verify_signatureFor "body" "s") rfl rfl (Or.inl rfl) rfl
      rfl (by decide)]
    decide
  exact c10_clean_check_first.2 worldMain _ hmem

end PRBot
